import Mathlib

/-!
Shallow embedding of the library management program in
`Python OOP/lib_app_final.py`.

Modelling conventions:
* Python strings are modelled as `List Char` (`Str`), so that the
  semicolon join/split used by member serialization can be reasoned
  about structurally.  `S` turns a Lean string literal into a `Str`.
* The class hierarchy `Book` / `FictionBook` / `NonFictionBook` is a
  single structure with a variant tag carrying the extra field, exactly
  the data the three classes hold.
* A `Member`'s `borrowed_books` is a Python list of `Book` objects; in
  every state the program can build, each such object is the result of
  `find_book` for its isbn (the first catalog book with that isbn), so
  the list is represented by the list of those isbns.  Python's
  identity-based `book in member.borrowed_books` test then coincides
  with isbn membership.
* Each `Librarian` operation is embedded as a pure function returning
  the reported outcome, the state after the call, and whether
  `_save_data` was invoked (console printing is otherwise ignored).
* `_load_data` is embedded over the list of data rows that follow the
  header row, each row being the list of CSV fields.  The only
  in-model read failure is the `IndexError` raised by `row[0]` on an
  empty row; it is caught by the `except Exception` handler, which
  skips the member-resolution phase and keeps whatever was appended so
  far.
-/

namespace LibApp

/-- Python `str`, modelled as its list of characters. -/
abbrev Str := List Char

/-- Coerce a Lean string literal to the `Str` model. -/
def S (s : String) : Str := s.data

/-- The extra data distinguishing `Book`, `FictionBook` and
`NonFictionBook`. -/
inductive BookVariant where
  | plain : BookVariant
  | fiction (genre : Str) : BookVariant
  | nonfiction (subjectArea : Str) : BookVariant
deriving DecidableEq, Repr

/-- A book record: the fields of class `Book` plus the subclass tag. -/
structure Book where
  title : Str
  author : Str
  isbn : Str
  is_borrowed : Bool
  variant : BookVariant
deriving DecidableEq, Repr

/-- A member record.  `borrowedBooks` lists the isbns of the `Book`
objects in the Python member's `borrowed_books` list. -/
structure Member where
  member_id : Str
  name : Str
  borrowedBooks : List Str
deriving DecidableEq, Repr

/-- `Member.__init__`: the in-memory `borrowed_books` list always
starts empty (constructor isbns go to the provisional CSV field). -/
def mkMember (member_id name : Str) : Member :=
  ⟨member_id, name, []⟩

/-- The `Librarian`'s in-memory collections. -/
structure LibState where
  books : List Book
  members : List Member
deriving DecidableEq, Repr

/-- The collections right after `Librarian.__init__` before any load. -/
def emptyState : LibState := ⟨[], []⟩

/-- `find_book` over a book list: first book whose isbn matches. -/
def findBookIn (books : List Book) (isbn : Str) : Option Book :=
  match books with
  | [] => none
  | b :: bs => if b.isbn = isbn then some b else findBookIn bs isbn

/-- `Librarian.find_book`. -/
def find_book (s : LibState) (isbn : Str) : Option Book :=
  findBookIn s.books isbn

/-- `find_member` over a member list: first member whose id matches. -/
def findMemberIn (members : List Member) (member_id : Str) : Option Member :=
  match members with
  | [] => none
  | m :: ms => if m.member_id = member_id then some m else findMemberIn ms member_id

/-- `Librarian.find_member`. -/
def find_member (s : LibState) (member_id : Str) : Option Member :=
  findMemberIn s.members member_id

/-- The reported failures of the four catalog operations.  The two
middle borrow failures are both `BookAlreadyBorrowedException` in the
source but carry distinct messages, so they are distinguishable
outcomes. -/
inductive LibErr where
  | duplicateBook : LibErr
  | duplicateMember : LibErr
  | memberNotFound : LibErr
  | bookNotFound : LibErr
  | alreadyBorrowed : LibErr
  | memberAlreadyHas : LibErr
  | notAvailable : LibErr
  | notBorrowedByMember : LibErr
deriving DecidableEq, Repr

/-- Outcome of one catalog operation: the reported result, the state
after the call, and whether `_save_data` was invoked. -/
structure OpResult where
  res : Except LibErr Unit
  state : LibState
  saved : Bool
deriving Repr

/-- `Librarian.add_book`. -/
def add_book (s : LibState) (book : Book) : OpResult :=
  if ∃ b ∈ s.books, b.isbn = book.isbn then
    ⟨.error .duplicateBook, s, false⟩
  else
    ⟨.ok (), { s with books := s.books ++ [book] }, true⟩

/-- `Librarian.add_member`. -/
def add_member (s : LibState) (member : Member) : OpResult :=
  if ∃ m ∈ s.members, m.member_id = member.member_id then
    ⟨.error .duplicateMember, s, false⟩
  else
    ⟨.ok (), { s with members := s.members ++ [member] }, true⟩

/-- `book.is_borrowed = v` where `book` is the object `find_book`
returned: updates the first book with the given isbn. -/
def setBorrowed (isbn : Str) (v : Bool) : List Book → List Book
  | [] => []
  | b :: bs =>
      if b.isbn = isbn then { b with is_borrowed := v } :: bs
      else b :: setBorrowed isbn v bs

/-- Mutation of the member object `find_member` returned: applies `f`
to the first member with the given id. -/
def updateFirstMember (member_id : Str) (f : Member → Member) :
    List Member → List Member
  | [] => []
  | m :: ms =>
      if m.member_id = member_id then f m :: ms
      else m :: updateFirstMember member_id f ms

/-- `Librarian.borrow_book`. -/
def borrow_book (s : LibState) (member_id isbn : Str) : OpResult :=
  match find_member s member_id with
  | none => ⟨.error .memberNotFound, s, false⟩
  | some member =>
    match find_book s isbn with
    | none => ⟨.error .bookNotFound, s, false⟩
    | some book =>
      if book.is_borrowed then ⟨.error .alreadyBorrowed, s, false⟩
      else if isbn ∈ member.borrowedBooks then
        ⟨.error .memberAlreadyHas, s, false⟩
      else
        ⟨.ok (),
         ⟨setBorrowed isbn true s.books,
          updateFirstMember member_id
            (fun m => { m with borrowedBooks := m.borrowedBooks ++ [isbn] })
            s.members⟩,
         true⟩

/-- `Librarian.return_book`.  Python's `list.remove` deletes the first
occurrence, which `List.erase` matches. -/
def return_book (s : LibState) (member_id isbn : Str) : OpResult :=
  match find_member s member_id with
  | none => ⟨.error .memberNotFound, s, false⟩
  | some member =>
    match find_book s isbn with
    | none => ⟨.error .bookNotFound, s, false⟩
    | some book =>
      if ¬ book.is_borrowed then ⟨.error .notAvailable, s, false⟩
      else if isbn ∉ member.borrowedBooks then
        ⟨.error .notBorrowedByMember, s, false⟩
      else
        ⟨.ok (),
         ⟨setBorrowed isbn false s.books,
          updateFirstMember member_id
            (fun m => { m with borrowedBooks := m.borrowedBooks.erase isbn })
            s.members⟩,
         true⟩

/-! ## Serialization and loading -/

/-- One CSV row, as its list of fields. -/
abbrev Row := List Str

/-- Python `str(bool)`. -/
def boolStr : Bool → Str
  | true => S "True"
  | false => S "False"

/-- `is_borrowed_str.lower() == 'true'` (the relevant strings are
ASCII, where `Char.toLower` agrees with Python `str.lower`). -/
def parseBool (s : Str) : Bool :=
  s.map Char.toLower = S "true"

/-- Python `s.split(c)` for a one-character separator, no maxsplit. -/
def splitOnCh (c : Char) : Str → List Str
  | [] => [[]]
  | x :: xs =>
      let r := splitOnCh c xs
      if x = c then [] :: r
      else
        match r with
        | [] => [[x]]
        | y :: ys => (x :: y) :: ys

/-- Python `c.join(l)` for a one-character separator. -/
def joinCh (c : Char) : List Str → Str
  | [] => []
  | [x] => x
  | x :: xs => x ++ c :: joinCh c xs

/-- `borrowed_isbns_str.split(';') if borrowed_isbns_str else []`. -/
def parseMemberIsbns (s : Str) : List Str :=
  if s = [] then [] else splitOnCh ';' s

/-- `row[i]` under the row-length guard (defaults never surface when
the guard holds). -/
def getF (row : Row) (i : Nat) : Str := row.getD i []

/-- `Book.to_csv_row`, dispatching exactly as the three subclasses do. -/
def Book.to_csv_row (b : Book) : Row :=
  match b.variant with
  | .plain =>
      [S "BOOK", b.isbn, b.title, b.author, boolStr b.is_borrowed, S ""]
  | .fiction genre =>
      [S "FICTION_BOOK", b.isbn, b.title, b.author, boolStr b.is_borrowed, genre]
  | .nonfiction subjectArea =>
      [S "NON_FICTION_BOOK", b.isbn, b.title, b.author, boolStr b.is_borrowed,
       subjectArea]

/-- `Member.to_csv_row`: the isbn list is recomputed from the
`borrowed_books` objects and semicolon-joined. -/
def Member.to_csv_row (m : Member) : Row :=
  [S "MEMBER", m.member_id, m.name, joinCh ';' m.borrowedBooks]

/-- What the loader's per-row dispatch does with one data row. -/
inductive ParseOutcome where
  | bookRec (b : Book) : ParseOutcome
  | memberRec (m : Member) (isbns : List Str) : ParseOutcome
  | skip : ParseOutcome
  | fail : ParseOutcome
deriving DecidableEq, Repr

/-- The `if/elif` chain over one data row inside `_load_data`'s loop.
An empty row makes `row[0]` raise `IndexError` (`fail`); a row whose
tag matches no branch, or is shorter than the branch's length guard,
falls through silently (`skip`). -/
def parseDataRow (row : Row) : ParseOutcome :=
  match row with
  | [] => .fail
  | t :: _ =>
      if t = S "BOOK" ∧ 5 ≤ row.length then
        .bookRec ⟨getF row 2, getF row 3, getF row 1, parseBool (getF row 4),
                  .plain⟩
      else if t = S "FICTION_BOOK" ∧ 6 ≤ row.length then
        .bookRec ⟨getF row 2, getF row 3, getF row 1, parseBool (getF row 4),
                  .fiction (getF row 5)⟩
      else if t = S "NON_FICTION_BOOK" ∧ 6 ≤ row.length then
        .bookRec ⟨getF row 2, getF row 3, getF row 1, parseBool (getF row 4),
                  .nonfiction (getF row 5)⟩
      else if t = S "MEMBER" ∧ 4 ≤ row.length then
        .memberRec (mkMember (getF row 1) (getF row 2))
          (parseMemberIsbns (getF row 3))
      else .skip

/-- State of `_load_data` when the row loop finishes or aborts:
the appended books and members, the `member_borrowed_mapping` dict
entries in write order, and whether an exception escaped the loop. -/
structure ParseResult where
  books : List Book
  members : List Member
  mapping : List (Str × List Str)
  failed : Bool
deriving DecidableEq, Repr

/-- The row loop of `_load_data`.  On `fail` the iteration stops: the
rows already processed stay appended, later rows are never seen. -/
def parseRows : List Row → ParseResult
  | [] => ⟨[], [], [], false⟩
  | row :: rest =>
    match parseDataRow row with
    | .fail => ⟨[], [], [], true⟩
    | .skip => parseRows rest
    | .bookRec b =>
        let r := parseRows rest
        { r with books := b :: r.books }
    | .memberRec m isbns =>
        let r := parseRows rest
        { r with members := m :: r.members,
                 mapping := (m.member_id, isbns) :: r.mapping }

/-- `member_borrowed_mapping[k]`: Python dict writes overwrite, so the
last entry for a key wins. -/
def lookupLast (mp : List (Str × List Str)) (k : Str) : Option (List Str) :=
  match mp with
  | [] => none
  | (k', v) :: rest =>
    match lookupLast rest k with
    | some r => some r
    | none => if k' = k then some v else none

/-- The member-resolution phase of `_load_data`: each member's mapped
isbns are looked up against the loaded books; found ones are appended
to `borrowed_books`, missing ones produce a warning `(name, isbn)`. -/
def resolveAll (books : List Book) (mapping : List (Str × List Str)) :
    List Member → List Member × List (Str × Str)
  | [] => ([], [])
  | m :: ms =>
      let isbns := (lookupLast mapping m.member_id).getD []
      let resolved := isbns.filter (fun i => (findBookIn books i).isSome)
      let warns := (isbns.filter (fun i => (findBookIn books i).isNone)).map
        (fun i => (m.name, i))
      ({ m with borrowedBooks := m.borrowedBooks ++ resolved }
          :: (resolveAll books mapping ms).1,
       warns ++ (resolveAll books mapping ms).2)

/-- Result of `_load_data` over the data rows after the header. -/
structure LoadResult where
  state : LibState
  warnings : List (Str × Str)
  failed : Bool
deriving DecidableEq, Repr

/-- `Librarian._load_data` on an existing file, as a function of the
data rows that follow the header row.  A mid-loop exception jumps to
the `except` handler, skipping resolution but keeping the partial
collections. -/
def loadData (rows : List Row) : LoadResult :=
  let p := parseRows rows
  if p.failed then ⟨⟨p.books, p.members⟩, [], true⟩
  else
    ⟨⟨p.books, (resolveAll p.books p.mapping p.members).1⟩,
     (resolveAll p.books p.mapping p.members).2, false⟩

/-! ## Command sequences (reachability) -/

/-- The four mutating operations as issued by the interactive shell:
`addMember` carries the constructor arguments of a fresh `Member`. -/
inductive Cmd where
  | addBook (b : Book) : Cmd
  | addMember (member_id name : Str) : Cmd
  | borrowBook (member_id isbn : Str) : Cmd
  | returnBook (member_id isbn : Str) : Cmd

/-- State transition of one command. -/
def step (s : LibState) : Cmd → LibState
  | .addBook b => (add_book s b).state
  | .addMember i n => (add_member s (mkMember i n)).state
  | .borrowBook m i => (borrow_book s m i).state
  | .returnBook m i => (return_book s m i).state

/-- Run a command sequence from the empty catalog. -/
def runCmds (cmds : List Cmd) : LibState :=
  cmds.foldl step emptyState

/-! ## Specification predicates -/

/-- Total number of occurrences of isbn `i` across all members'
borrowed lists. -/
def refCount (ms : List Member) (i : Str) : Nat :=
  (ms.map (fun m => m.borrowedBooks.count i)).sum

/-- Number of members whose borrowed list contains isbn `i`. -/
def holdersCount (ms : List Member) (i : Str) : Nat :=
  (ms.filter (fun m => decide (i ∈ m.borrowedBooks))).length

/-- The spec's global borrow invariant: a book is borrowed iff exactly
one member's borrowed list contains its isbn, and an unborrowed book is
referenced by no member. -/
def BorrowInv (s : LibState) : Prop :=
  ∀ b ∈ s.books,
    (b.is_borrowed = true ↔ holdersCount s.members b.isbn = 1) ∧
    (b.is_borrowed = false → ∀ m ∈ s.members, b.isbn ∉ m.borrowedBooks)

/-- The inductive invariant carried through the operations: unique
book isbns, every referenced isbn names a catalog book, and reference
counts agree with the borrowed flags. -/
def GoodState (s : LibState) : Prop :=
  (s.books.map Book.isbn).Nodup ∧
  (∀ m ∈ s.members, ∀ i ∈ m.borrowedBooks, ∃ b ∈ s.books, b.isbn = i) ∧
  (∀ b ∈ s.books,
    (b.is_borrowed = true → refCount s.members b.isbn = 1) ∧
    (b.is_borrowed = false → refCount s.members b.isbn = 0))

/-! ## Concrete fixtures used to instantiate the general theorems -/

/-- A concrete available book. -/
def bkA : Book := ⟨S "t", S "a", S "i1", false, .plain⟩

/-- A concrete borrowed fiction book. -/
def bkB : Book := ⟨S "u", S "b", S "i2", true, .fiction (S "g")⟩

/-- A concrete member holding nothing. -/
def memA : Member := ⟨S "M1", S "Alice", []⟩

/-- A concrete member holding `bkB`. -/
def memB : Member := ⟨S "M2", S "Bob", [S "i2"]⟩

/-- A concrete catalog state: `bkB` is held by `memB`. -/
def sampleState : LibState := ⟨[bkA, bkB], [memA, memB]⟩

/-- Concrete data rows: one book row and one member row referencing
both that book's isbn and a dangling isbn `i2`. -/
def rowsA : List Row :=
  [[S "BOOK", S "i1", S "t", S "a", S "False", S ""],
   [S "MEMBER", S "M1", S "Bob", S "i1;i2"]]

/-! ## Lookup and update lemmas -/

theorem findBookIn_mem {books : List Book} {i : Str} {b : Book}
    (h : findBookIn books i = some b) : b ∈ books ∧ b.isbn = i := by
  induction books with
  | nil => simp [findBookIn] at h
  | cons c cs ih =>
    rw [findBookIn] at h
    by_cases hc : c.isbn = i
    · simp only [if_pos hc, Option.some.injEq] at h
      subst h
      exact ⟨List.mem_cons_self c cs, hc⟩
    · rw [if_neg hc] at h
      obtain ⟨hb, hi⟩ := ih h
      exact ⟨List.mem_cons_of_mem _ hb, hi⟩

theorem findBookIn_eq_none {books : List Book} {i : Str} :
    findBookIn books i = none ↔ ∀ b ∈ books, b.isbn ≠ i := by
  induction books with
  | nil => simp [findBookIn]
  | cons c cs ih =>
    rw [findBookIn]
    by_cases hc : c.isbn = i
    · simp [hc]
    · simp [hc, ih]

theorem findMemberIn_mem {ms : List Member} {mid : Str} {m : Member}
    (h : findMemberIn ms mid = some m) : m ∈ ms ∧ m.member_id = mid := by
  induction ms with
  | nil => simp [findMemberIn] at h
  | cons c cs ih =>
    rw [findMemberIn] at h
    by_cases hc : c.member_id = mid
    · simp only [if_pos hc, Option.some.injEq] at h
      subst h
      exact ⟨List.mem_cons_self c cs, hc⟩
    · rw [if_neg hc] at h
      obtain ⟨hm, hi⟩ := ih h
      exact ⟨List.mem_cons_of_mem _ hm, hi⟩

theorem map_isbn_setBorrowed (i : Str) (v : Bool) (books : List Book) :
    (setBorrowed i v books).map Book.isbn = books.map Book.isbn := by
  induction books with
  | nil => rfl
  | cons c cs ih =>
    rw [setBorrowed]
    by_cases hc : c.isbn = i
    · simp [hc]
    · simp [hc, ih]

theorem findBookIn_setBorrowed {books : List Book} {i : Str} {b : Book}
    (h : findBookIn books i = some b) (v : Bool) :
    findBookIn (setBorrowed i v books) i = some { b with is_borrowed := v } := by
  induction books with
  | nil => simp [findBookIn] at h
  | cons c cs ih =>
    rw [findBookIn] at h
    rw [setBorrowed]
    by_cases hc : c.isbn = i
    · simp only [if_pos hc, Option.some.injEq] at h
      subst h
      simp [findBookIn, hc]
    · rw [if_neg hc] at h
      simp [findBookIn, hc, ih h]

theorem mem_setBorrowed {books : List Book} {i : Str} {v : Bool} {c : Book}
    (hnd : (books.map Book.isbn).Nodup)
    (hc : c ∈ setBorrowed i v books) :
    (c ∈ books ∧ c.isbn ≠ i) ∨
      ∃ b, findBookIn books i = some b ∧ c = { b with is_borrowed := v } := by
  induction books with
  | nil => simp [setBorrowed] at hc
  | cons d ds ih =>
    rw [setBorrowed] at hc
    rw [List.map_cons, List.nodup_cons] at hnd
    by_cases hd : d.isbn = i
    · rw [if_pos hd] at hc
      rcases List.mem_cons.mp hc with h | h
      · exact Or.inr ⟨d, by simp [findBookIn, hd], h⟩
      · refine Or.inl ⟨List.mem_cons_of_mem _ h, ?_⟩
        intro hci
        exact hnd.1 (hd ▸ hci ▸ List.mem_map_of_mem Book.isbn h)
    · rw [if_neg hd] at hc
      rcases List.mem_cons.mp hc with h | h
      · exact Or.inl ⟨by simp [h], h ▸ hd⟩
      · rcases ih hnd.2 h with ⟨h1, h2⟩ | ⟨b, hb, hcb⟩
        · exact Or.inl ⟨List.mem_cons_of_mem _ h1, h2⟩
        · exact Or.inr ⟨b, by simp [findBookIn, hd, hb], hcb⟩

theorem findMemberIn_updateFirst {ms : List Member} {mid : Str} {m : Member}
    (h : findMemberIn ms mid = some m) (f : Member → Member)
    (hf : ∀ x, (f x).member_id = x.member_id) :
    findMemberIn (updateFirstMember mid f ms) mid = some (f m) := by
  induction ms with
  | nil => simp [findMemberIn] at h
  | cons c cs ih =>
    rw [findMemberIn] at h
    rw [updateFirstMember]
    by_cases hc : c.member_id = mid
    · simp only [if_pos hc, Option.some.injEq] at h
      subst h
      simp [findMemberIn, hf, hc]
    · rw [if_neg hc] at h
      simp [findMemberIn, hf, hc, ih h]

theorem mem_updateFirstMember {ms : List Member} {mid : Str} {f : Member → Member}
    {c : Member} (hc : c ∈ updateFirstMember mid f ms) :
    c ∈ ms ∨ ∃ m, findMemberIn ms mid = some m ∧ c = f m := by
  induction ms with
  | nil => simp [updateFirstMember] at hc
  | cons d ds ih =>
    rw [updateFirstMember] at hc
    by_cases hd : d.member_id = mid
    · rw [if_pos hd] at hc
      rcases List.mem_cons.mp hc with h | h
      · exact Or.inr ⟨d, by simp [findMemberIn, hd], h⟩
      · exact Or.inl (List.mem_cons_of_mem _ h)
    · rw [if_neg hd] at hc
      rcases List.mem_cons.mp hc with h | h
      · exact Or.inl (by simp [h])
      · rcases ih h with h' | ⟨m, hm, hcm⟩
        · exact Or.inl (List.mem_cons_of_mem _ h')
        · exact Or.inr ⟨m, by simp [findMemberIn, hd, hm], hcm⟩

/-! ## Reference-count lemmas -/

theorem refCount_cons (m : Member) (ms : List Member) (i : Str) :
    refCount (m :: ms) i = m.borrowedBooks.count i + refCount ms i := by
  simp [refCount]

theorem refCount_append (ms₁ ms₂ : List Member) (i : Str) :
    refCount (ms₁ ++ ms₂) i = refCount ms₁ i + refCount ms₂ i := by
  simp [refCount]

theorem refCount_eq_zero {ms : List Member} {i : Str}
    (h : ∀ m ∈ ms, i ∉ m.borrowedBooks) : refCount ms i = 0 := by
  induction ms with
  | nil => rfl
  | cons c cs ih =>
    rw [refCount_cons, List.count_eq_zero.mpr (h c (List.mem_cons_self c cs)),
      ih (fun m hm => h m (List.mem_cons_of_mem _ hm))]

theorem refCount_update_append {ms : List Member} {mid : Str} {m : Member}
    (h : findMemberIn ms mid = some m) (i j : Str) :
    refCount (updateFirstMember mid
        (fun x => { x with borrowedBooks := x.borrowedBooks ++ [i] }) ms) j
      = refCount ms j + (if i = j then 1 else 0) := by
  induction ms with
  | nil => simp [findMemberIn] at h
  | cons c cs ih =>
    rw [findMemberIn] at h
    rw [updateFirstMember]
    by_cases hc : c.member_id = mid
    · rw [if_pos hc, refCount_cons, refCount_cons]
      simp only [List.count_append]
      by_cases hij : i = j
      · subst hij
        simp [List.count_cons]
        omega
      · have : (j : Str) ∉ ([i] : List Str) := by simp [Ne.symm hij]
        rw [List.count_eq_zero.mpr this]
        simp [hij]
    · rw [if_neg hc] at h
      rw [if_neg hc, refCount_cons, refCount_cons, ih h]
      omega

theorem refCount_update_erase {ms : List Member} {mid : Str} {m : Member}
    (h : findMemberIn ms mid = some m) {i : Str} (hi : i ∈ m.borrowedBooks)
    (j : Str) :
    refCount (updateFirstMember mid
        (fun x => { x with borrowedBooks := x.borrowedBooks.erase i }) ms) j
      + (if i = j then 1 else 0) = refCount ms j := by
  induction ms with
  | nil => simp [findMemberIn] at h
  | cons c cs ih =>
    rw [findMemberIn] at h
    rw [updateFirstMember]
    by_cases hc : c.member_id = mid
    · simp only [if_pos hc, Option.some.injEq] at h
      subst h
      rw [if_pos hc, refCount_cons, refCount_cons]
      by_cases hij : i = j
      · subst hij
        have h1 : 1 ≤ c.borrowedBooks.count i := List.count_pos_iff.mpr hi
        rw [List.count_erase]
        simp
        omega
      · rw [List.count_erase]
        have : ((i == j) = true) = False := by simp [hij]
        simp [this, hij]
    · rw [if_neg hc] at h
      rw [if_neg hc, refCount_cons, refCount_cons]
      have := ih h
      omega

/-! ## Holder-count lemmas -/

theorem holdersCount_cons (m : Member) (ms : List Member) (i : Str) :
    holdersCount (m :: ms) i
      = (if i ∈ m.borrowedBooks then 1 else 0) + holdersCount ms i := by
  by_cases h : i ∈ m.borrowedBooks
  · simp [holdersCount, h]
    omega
  · simp [holdersCount, h]

theorem holders_of_refCount_zero {ms : List Member} {i : Str}
    (h : refCount ms i = 0) :
    holdersCount ms i = 0 ∧ ∀ m ∈ ms, i ∉ m.borrowedBooks := by
  induction ms with
  | nil => exact ⟨rfl, by simp⟩
  | cons c cs ih =>
    rw [refCount_cons] at h
    have hc : c.borrowedBooks.count i = 0 := by omega
    have hcs : refCount cs i = 0 := by omega
    have hni : i ∉ c.borrowedBooks := List.count_eq_zero.mp hc
    obtain ⟨h1, h2⟩ := ih hcs
    refine ⟨by rw [holdersCount_cons]; simp [hni, h1], ?_⟩
    intro m hm
    rcases List.mem_cons.mp hm with rfl | hm'
    · exact hni
    · exact h2 m hm'

theorem holders_of_refCount_one {ms : List Member} {i : Str}
    (h : refCount ms i = 1) : holdersCount ms i = 1 := by
  induction ms with
  | nil => simp [refCount] at h
  | cons c cs ih =>
    rw [refCount_cons] at h
    rw [holdersCount_cons]
    by_cases hc : i ∈ c.borrowedBooks
    · have h1 : 1 ≤ c.borrowedBooks.count i := List.count_pos_iff.mpr hc
      have hcs : refCount cs i = 0 := by omega
      simp [hc, (holders_of_refCount_zero hcs).1]
    · have hc0 : c.borrowedBooks.count i = 0 := List.count_eq_zero.mpr hc
      have : refCount cs i = 1 := by omega
      simp [hc, ih this]

theorem borrowInv_of_goodState {s : LibState} (hs : GoodState s) :
    BorrowInv s := by
  obtain ⟨hnd, href, hcnt⟩ := hs
  intro b hb
  obtain ⟨h1, h0⟩ := hcnt b hb
  refine ⟨⟨fun hbor => holders_of_refCount_one (h1 hbor), ?_⟩, ?_⟩
  · intro hh
    by_contra hbor
    have hbf : b.is_borrowed = false := by
      cases hib : b.is_borrowed
      · rfl
      · exact absurd hib hbor
    have := (holders_of_refCount_zero (h0 hbf)).1
    omega
  · intro hbf m hm
    exact (holders_of_refCount_zero (h0 hbf)).2 m hm

/-! ## Invariant preservation -/

theorem goodState_empty : GoodState emptyState := by
  refine ⟨List.nodup_nil, ?_, ?_⟩ <;> simp [emptyState]

theorem goodState_add_book {s : LibState} {b : Book}
    (hs : GoodState s) (hb : b.is_borrowed = false) :
    GoodState (add_book s b).state := by
  obtain ⟨hnd, href, hcnt⟩ := hs
  rw [add_book]
  split
  · exact ⟨hnd, href, hcnt⟩
  · rename_i hdup
    push_neg at hdup
    refine ⟨?_, ?_, ?_⟩
    · dsimp only
      rw [List.map_append, List.nodup_append]
      refine ⟨hnd, by simp, ?_⟩
      intro x hx
      simp only [List.mem_map] at hx
      obtain ⟨c, hc, rfl⟩ := hx
      simp only [List.map_cons, List.map_nil, List.mem_singleton]
      intro hcb
      exact hdup c hc hcb
    · intro m hm j hj
      obtain ⟨c, hc, hcj⟩ := href m hm j hj
      exact ⟨c, List.mem_append_left _ hc, hcj⟩
    · intro c hc
      rcases List.mem_append.mp hc with h | h
      · exact hcnt c h
      · rw [List.mem_singleton] at h
        subst h
        have hz : refCount s.members c.isbn = 0 := by
          apply refCount_eq_zero
          intro m hm hmem
          obtain ⟨d, hd, hdc⟩ := href m hm c.isbn hmem
          exact hdup d hd hdc
        exact ⟨fun hbt => absurd (hb ▸ hbt) (by simp), fun _ => hz⟩

theorem goodState_add_member {s : LibState} {m : Member}
    (hs : GoodState s) (hm : m.borrowedBooks = []) :
    GoodState (add_member s m).state := by
  obtain ⟨hnd, href, hcnt⟩ := hs
  rw [add_member]
  split
  · exact ⟨hnd, href, hcnt⟩
  · refine ⟨hnd, ?_, ?_⟩
    · intro m' hm' j hj
      rcases List.mem_append.mp hm' with h | h
      · exact href m' h j hj
      · rw [List.mem_singleton] at h
        subst h
        rw [hm] at hj
        simp at hj
    · intro c hc
      have hr : ∀ j, refCount (s.members ++ [m]) j = refCount s.members j := by
        intro j
        rw [refCount_append, refCount_cons]
        simp [hm, refCount]
      exact ⟨fun hbt => (hr c.isbn).symm ▸ (hcnt c hc).1 hbt,
             fun hbf => (hr c.isbn).symm ▸ (hcnt c hc).2 hbf⟩

theorem goodState_borrow {s : LibState} (mid i : Str)
    (hs : GoodState s) : GoodState (borrow_book s mid i).state := by
  obtain ⟨hnd, href, hcnt⟩ := hs
  rw [borrow_book]
  split
  · exact ⟨hnd, href, hcnt⟩
  · rename_i member hm
    split
    · exact ⟨hnd, href, hcnt⟩
    · rename_i book hb
      split
      · exact ⟨hnd, href, hcnt⟩
      · rename_i hbor
        split
        · exact ⟨hnd, href, hcnt⟩
        · rename_i hnotin
          show GoodState ⟨setBorrowed i true s.books,
            updateFirstMember mid
              (fun m => { m with borrowedBooks := m.borrowedBooks ++ [i] })
              s.members⟩
          have hm' : findMemberIn s.members mid = some member := hm
          have hb' : findBookIn s.books i = some book := hb
          have hbor' : book.is_borrowed = false := by
            cases hib : book.is_borrowed
            · rfl
            · exact absurd hib hbor
          have hbmem := findBookIn_mem hb'
          have hmmem := findMemberIn_mem hm'
          have hexists : ∀ j, (∃ c ∈ s.books, c.isbn = j) →
              ∃ c ∈ setBorrowed i true s.books, c.isbn = j := by
            rintro j ⟨c, hc, rfl⟩
            have : c.isbn ∈ (setBorrowed i true s.books).map Book.isbn := by
              rw [map_isbn_setBorrowed]
              exact List.mem_map_of_mem Book.isbn hc
            obtain ⟨d, hd, hdj⟩ := List.mem_map.mp this
            exact ⟨d, hd, hdj⟩
          refine ⟨?_, ?_, ?_⟩
          · show (List.map Book.isbn (setBorrowed i true s.books)).Nodup
            rw [map_isbn_setBorrowed]
            exact hnd
          · intro m' hmm j hj
            rcases mem_updateFirstMember hmm with h | ⟨mm, hfind, rfl⟩
            · exact hexists j (href m' h j hj)
            · rw [hm'] at hfind
              cases hfind
              dsimp only at hj
              rcases List.mem_append.mp hj with h | h
              · exact hexists j (href member hmmem.1 j h)
              · rw [List.mem_singleton] at h
                subst h
                exact hexists j ⟨book, hbmem.1, hbmem.2⟩
          · intro c hc
            dsimp only
            rcases mem_setBorrowed hnd hc with ⟨hcmem, hcne⟩ | ⟨b'', hb'', hceq⟩
            · have hr := refCount_update_append hm' i c.isbn
              rw [if_neg (fun hic => hcne hic.symm)] at hr
              refine ⟨fun hbt => ?_, fun hbf => ?_⟩
              · have := (hcnt c hcmem).1 hbt
                omega
              · have := (hcnt c hcmem).2 hbf
                omega
            · have hbq : book = b'' := by
                rw [hb'] at hb''
                exact Option.some.inj hb''
              subst hbq
              subst hceq
              dsimp only
              have hci : book.isbn = i := hbmem.2
              refine ⟨fun _ => ?_, fun hbf => by simp at hbf⟩
              have hr := refCount_update_append hm' i book.isbn
              rw [if_pos hci.symm] at hr
              have hz := (hcnt book hbmem.1).2 hbor'
              omega

theorem goodState_return {s : LibState} (mid i : Str)
    (hs : GoodState s) : GoodState (return_book s mid i).state := by
  obtain ⟨hnd, href, hcnt⟩ := hs
  rw [return_book]
  split
  · exact ⟨hnd, href, hcnt⟩
  · rename_i member hm
    split
    · exact ⟨hnd, href, hcnt⟩
    · rename_i book hb
      split
      · exact ⟨hnd, href, hcnt⟩
      · rename_i hbor
        split
        · exact ⟨hnd, href, hcnt⟩
        · rename_i hnotin
          show GoodState ⟨setBorrowed i false s.books,
            updateFirstMember mid
              (fun m => { m with borrowedBooks := m.borrowedBooks.erase i })
              s.members⟩
          have hm' : findMemberIn s.members mid = some member := hm
          have hb' : findBookIn s.books i = some book := hb
          have hbor' : book.is_borrowed = true := by
            cases hib : book.is_borrowed
            · exact absurd (by rw [hib]; simp) hbor
            · rfl
          have hin : i ∈ member.borrowedBooks := not_not.mp hnotin
          have hbmem := findBookIn_mem hb'
          have hmmem := findMemberIn_mem hm'
          have hexists : ∀ j, (∃ c ∈ s.books, c.isbn = j) →
              ∃ c ∈ setBorrowed i false s.books, c.isbn = j := by
            rintro j ⟨c, hc, rfl⟩
            have : c.isbn ∈ (setBorrowed i false s.books).map Book.isbn := by
              rw [map_isbn_setBorrowed]
              exact List.mem_map_of_mem Book.isbn hc
            obtain ⟨d, hd, hdj⟩ := List.mem_map.mp this
            exact ⟨d, hd, hdj⟩
          refine ⟨?_, ?_, ?_⟩
          · show (List.map Book.isbn (setBorrowed i false s.books)).Nodup
            rw [map_isbn_setBorrowed]
            exact hnd
          · intro m' hmm j hj
            rcases mem_updateFirstMember hmm with h | ⟨mm, hfind, rfl⟩
            · exact hexists j (href m' h j hj)
            · rw [hm'] at hfind
              cases hfind
              dsimp only at hj
              exact hexists j (href member hmmem.1 j (List.erase_subset _ _ hj))
          · intro c hc
            dsimp only
            rcases mem_setBorrowed hnd hc with ⟨hcmem, hcne⟩ | ⟨b'', hb'', hceq⟩
            · have hr := refCount_update_erase hm' hin c.isbn
              rw [if_neg (fun hic => hcne hic.symm)] at hr
              refine ⟨fun hbt => ?_, fun hbf => ?_⟩
              · have := (hcnt c hcmem).1 hbt
                omega
              · have := (hcnt c hcmem).2 hbf
                omega
            · have hbq : book = b'' := by
                rw [hb'] at hb''
                exact Option.some.inj hb''
              subst hbq
              subst hceq
              dsimp only
              have hci : book.isbn = i := hbmem.2
              refine ⟨fun hbt => by simp at hbt, fun _ => ?_⟩
              have hr := refCount_update_erase hm' hin book.isbn
              rw [if_pos hci.symm] at hr
              have ho := (hcnt book hbmem.1).1 hbor'
              omega

theorem goodState_step {s : LibState} {c : Cmd} (hs : GoodState s)
    (hc : ∀ b, c = Cmd.addBook b → b.is_borrowed = false) :
    GoodState (step s c) := by
  cases c with
  | addBook b => exact goodState_add_book hs (hc b rfl)
  | addMember i n => exact goodState_add_member hs rfl
  | borrowBook m i => exact goodState_borrow m i hs
  | returnBook m i => exact goodState_return m i hs

theorem goodState_runCmds (cmds : List Cmd)
    (h : ∀ b, Cmd.addBook b ∈ cmds → b.is_borrowed = false) :
    GoodState (runCmds cmds) := by
  rw [runCmds]
  have : ∀ (l : List Cmd) (s : LibState), GoodState s →
      (∀ b, Cmd.addBook b ∈ l → b.is_borrowed = false) →
      GoodState (l.foldl step s) := by
    intro l
    induction l with
    | nil => intro s hs _; exact hs
    | cons c cs ih =>
      intro s hs hl
      rw [List.foldl_cons]
      refine ih (step s c) ?_ ?_
      · exact goodState_step hs (fun b hb => hl b (hb ▸ List.mem_cons_self c cs))
      · exact fun b hb => hl b (List.mem_cons_of_mem _ hb)
  exact this cmds emptyState goodState_empty h

/-! ## Join/split lemmas for member serialization -/

theorem splitOnCh_no_sep {c : Char} {x : Str} (h : c ∉ x) :
    splitOnCh c x = [x] := by
  induction x with
  | nil => rfl
  | cons a as ih =>
    rw [splitOnCh]
    have hac : ¬ a = c := by
      rintro rfl
      exact h (List.mem_cons_self a as)
    have has := ih (fun hc => h (List.mem_cons_of_mem _ hc))
    simp [hac, has]

theorem splitOnCh_sep_append {c : Char} {x : Str} (t : Str) (h : c ∉ x) :
    splitOnCh c (x ++ c :: t) = x :: splitOnCh c t := by
  induction x with
  | nil =>
    rw [List.nil_append, splitOnCh]
    simp
  | cons a as ih =>
    rw [List.cons_append, splitOnCh]
    have hac : ¬ a = c := by
      rintro rfl
      exact h (List.mem_cons_self a as)
    have has := ih (fun hc => h (List.mem_cons_of_mem _ hc))
    simp [hac, has]

theorem splitOnCh_joinCh {c : Char} {l : List Str} (hne : l ≠ [])
    (h : ∀ x ∈ l, c ∉ x) : splitOnCh c (joinCh c l) = l := by
  induction l with
  | nil => cases hne rfl
  | cons x xs ih =>
    cases xs with
    | nil =>
      show splitOnCh c (joinCh c [x]) = [x]
      rw [joinCh]
      exact splitOnCh_no_sep (h x (List.mem_cons_self x []))
    | cons y ys =>
      have hj : joinCh c (x :: y :: ys) = x ++ c :: joinCh c (y :: ys) := rfl
      rw [hj, splitOnCh_sep_append _ (h x (List.mem_cons_self x (y :: ys))),
        ih (by simp) (fun z hz => h z (List.mem_cons_of_mem _ hz))]

theorem joinCh_ne_nil {c : Char} {x : Str} {xs : List Str} (hx : x ≠ []) :
    joinCh c (x :: xs) ≠ [] := by
  cases xs with
  | nil => simpa [joinCh] using hx
  | cons y ys => simp [joinCh]

theorem parseMemberIsbns_joinCh {l : List Str}
    (h : ∀ x ∈ l, x ≠ [] ∧ ';' ∉ x) :
    parseMemberIsbns (joinCh ';' l) = l := by
  cases l with
  | nil => rfl
  | cons x xs =>
    rw [parseMemberIsbns,
      if_neg (joinCh_ne_nil (h x (List.mem_cons_self x xs)).1)]
    exact splitOnCh_joinCh (by simp) (fun z hz => (h z hz).2)

/-! ## Load lemmas -/

theorem parseDataRow_ne_fail {row : Row} (h : row ≠ []) :
    parseDataRow row ≠ ParseOutcome.fail := by
  match row with
  | [] => cases h rfl
  | t :: rest =>
    rw [parseDataRow]
    repeat' split
    all_goals simp

theorem parseDataRow_member_empty {row : Row} {m : Member}
    {isbns : List Str}
    (h : parseDataRow row = ParseOutcome.memberRec m isbns) :
    m.borrowedBooks = [] := by
  match row with
  | [] => simp [parseDataRow] at h
  | t :: rest =>
    rw [parseDataRow] at h
    split at h
    · simp at h
    · split at h
      · simp at h
      · split at h
        · simp at h
        · split at h
          · injection h with h1 h2
            subst h1
            rfl
          · simp at h

theorem parseRows_noFail {rows : List Row} (h : ∀ r ∈ rows, r ≠ []) :
    (parseRows rows).failed = false := by
  induction rows with
  | nil => rfl
  | cons q qs ih =>
    cases hq : parseDataRow q with
    | fail =>
      exact absurd hq (parseDataRow_ne_fail (h q (List.mem_cons_self q qs)))
    | skip =>
      simp only [parseRows, hq]
      exact ih (fun r hr => h r (List.mem_cons_of_mem _ hr))
    | bookRec b =>
      simp only [parseRows, hq]
      exact ih (fun r hr => h r (List.mem_cons_of_mem _ hr))
    | memberRec m isbns =>
      simp only [parseRows, hq]
      exact ih (fun r hr => h r (List.mem_cons_of_mem _ hr))

theorem parseRows_append {pre : List Row} {bs : List Book}
    {ms : List Member} {mp : List (Str × List Str)}
    (h : parseRows pre = ⟨bs, ms, mp, false⟩) (rest : List Row) :
    parseRows (pre ++ rest) =
      ⟨bs ++ (parseRows rest).books, ms ++ (parseRows rest).members,
       mp ++ (parseRows rest).mapping, (parseRows rest).failed⟩ := by
  induction pre generalizing bs ms mp with
  | nil =>
    rw [parseRows] at h
    injection h with h1 h2 h3 h4
    subst h1; subst h2; subst h3
    simp
  | cons q pre' ih =>
    rw [List.cons_append]
    cases hq : parseDataRow q with
    | fail =>
      rw [parseRows, hq] at h
      injection h with h1 h2 h3 h4
      simp at h4
    | skip =>
      rw [parseRows, hq] at h
      rw [parseRows, hq]
      exact ih h
    | bookRec b =>
      rw [parseRows, hq] at h
      cases hpr : parseRows pre' with
      | mk bks mms mmp f =>
        rw [hpr] at h
        injection h with h1 h2 h3 h4
        subst h1; subst h2; subst h3; subst h4
        rw [parseRows, hq, ih hpr]
        simp
    | memberRec m isbns =>
      rw [parseRows, hq] at h
      cases hpr : parseRows pre' with
      | mk bks mms mmp f =>
        rw [hpr] at h
        injection h with h1 h2 h3 h4
        subst h1; subst h2; subst h3; subst h4
        rw [parseRows, hq, ih hpr]
        simp

theorem parseRows_skip (pre post : List Row) {r : Row}
    (h : parseDataRow r = ParseOutcome.skip) :
    parseRows (pre ++ r :: post) = parseRows (pre ++ post) := by
  induction pre with
  | nil => simp [parseRows, h]
  | cons q qs ih =>
    rw [List.cons_append, List.cons_append]
    simp only [parseRows]
    rw [ih]

theorem parseRows_members_empty {rows : List Row} :
    ∀ m ∈ (parseRows rows).members, m.borrowedBooks = [] := by
  induction rows with
  | nil => simp [parseRows]
  | cons q qs ih =>
    cases hq : parseDataRow q with
    | fail => simp [parseRows, hq]
    | skip =>
      simp only [parseRows, hq]
      exact ih
    | bookRec b =>
      simp only [parseRows, hq]
      exact ih
    | memberRec m isbns =>
      simp only [parseRows, hq]
      intro m' hm'
      rcases List.mem_cons.mp hm' with rfl | hm''
      · exact parseDataRow_member_empty hq
      · exact ih m' hm''

theorem mapping_member_exists {rows : List Row} {mid : Str} {v : List Str}
    (h : lookupLast (parseRows rows).mapping mid = some v) :
    ∃ m, findMemberIn (parseRows rows).members mid = some m := by
  induction rows generalizing v with
  | nil => simp [parseRows, lookupLast] at h
  | cons q qs ih =>
    cases hq : parseDataRow q with
    | fail =>
      rw [parseRows, hq] at h
      simp [lookupLast] at h
    | skip =>
      rw [parseRows, hq] at h ⊢
      exact ih h
    | bookRec b =>
      rw [parseRows, hq] at h ⊢
      exact ih h
    | memberRec m isbns =>
      rw [parseRows, hq] at h ⊢
      dsimp only at h ⊢
      by_cases hmid : m.member_id = mid
      · exact ⟨m, by rw [findMemberIn, if_pos hmid]⟩
      · rw [lookupLast] at h
        cases hl : lookupLast (parseRows qs).mapping mid with
        | some r =>
          obtain ⟨m', hm'⟩ := ih hl
          exact ⟨m', by rw [findMemberIn, if_neg hmid]; exact hm'⟩
        | none =>
          rw [hl] at h
          rw [if_neg hmid] at h
          cases h

theorem resolveAll_find {books : List Book} {mp : List (Str × List Str)}
    {ms : List Member} {mid : Str} {m : Member}
    (h : findMemberIn ms mid = some m) :
    findMemberIn (resolveAll books mp ms).1 mid
      = some { m with borrowedBooks := (m.borrowedBooks ++
          ((lookupLast mp mid).getD []).filter
            (fun i => (findBookIn books i).isSome)) } := by
  induction ms with
  | nil => simp [findMemberIn] at h
  | cons c cs ih =>
    rw [findMemberIn] at h
    rw [resolveAll]
    by_cases hc : c.member_id = mid
    · simp only [if_pos hc, Option.some.injEq] at h
      subst h
      rw [findMemberIn]
      rw [if_pos (by exact hc)]
      rw [hc]
    · rw [if_neg hc] at h
      rw [findMemberIn]
      rw [if_neg (by exact hc)]
      exact ih h

theorem resolveAll_warn {books : List Book} {mp : List (Str × List Str)}
    {ms : List Member} {mid : Str} {m : Member}
    (h : findMemberIn ms mid = some m) {i : Str}
    (hi : i ∈ (lookupLast mp mid).getD [])
    (hnone : findBookIn books i = none) :
    (m.name, i) ∈ (resolveAll books mp ms).2 := by
  induction ms with
  | nil => simp [findMemberIn] at h
  | cons c cs ih =>
    rw [findMemberIn] at h
    rw [resolveAll]
    by_cases hc : c.member_id = mid
    · simp only [if_pos hc, Option.some.injEq] at h
      subst h
      refine List.mem_append_left _ ?_
      refine List.mem_map_of_mem _ ?_
      rw [hc]
      refine List.mem_filter.mpr ⟨hi, ?_⟩
      rw [hnone]
      rfl
    · rw [if_neg hc] at h
      exact List.mem_append_right _ (ih h)

/-! ## Claim theorems -/

/-- C2: for every member id `mid` and isbn `i`, if `borrow_book mid i`
reaches its success step, then in the resulting state `find_book i`
returns a book with `is_borrowed = true` and `find_member mid` returns
a member whose borrowed list contains `i`. -/
theorem c2_borrow_success_postcondition (s : LibState) (mid i : Str)
    (h : (borrow_book s mid i).res = .ok ()) :
    (∃ bk, find_book (borrow_book s mid i).state i = some bk ∧
      bk.is_borrowed = true) ∧
    (∃ m, find_member (borrow_book s mid i).state mid = some m ∧
      i ∈ m.borrowedBooks) := by
  cases hm : find_member s mid with
  | none => simp [borrow_book, hm] at h
  | some member =>
    cases hb : find_book s i with
    | none => simp [borrow_book, hm, hb] at h
    | some book =>
      by_cases hbor : book.is_borrowed
      · simp [borrow_book, hm, hb, hbor] at h
      · by_cases hmem : i ∈ member.borrowedBooks
        · simp [borrow_book, hm, hb, hbor, hmem] at h
        · have hstate : (borrow_book s mid i).state =
              ⟨setBorrowed i true s.books,
               updateFirstMember mid
                 (fun m => { m with borrowedBooks := m.borrowedBooks ++ [i] })
                 s.members⟩ := by
            simp [borrow_book, hm, hb, hbor, hmem]
          rw [hstate]
          constructor
          · exact ⟨_, findBookIn_setBorrowed hb true, rfl⟩
          · refine ⟨_, findMemberIn_updateFirst hm _ (fun x => rfl), ?_⟩
            simp

/-- C2 witness: a concrete successful borrow. -/
theorem c2_witness :
    (∃ bk, find_book (borrow_book sampleState (S "M1") (S "i1")).state (S "i1")
        = some bk ∧ bk.is_borrowed = true) ∧
    (∃ m, find_member (borrow_book sampleState (S "M1") (S "i1")).state (S "M1")
        = some m ∧ S "i1" ∈ m.borrowedBooks) :=
  c2_borrow_success_postcondition sampleState (S "M1") (S "i1") rfl

/-- C3: the four failure checks of `borrow_book` and `return_book` are
evaluated in the stated order and only the first applicable one is
reported; in particular `return_book` on an existing, borrowed book
whose isbn is not in the member's list reports
`notBorrowedByMember` regardless of the other members' lists. -/
theorem c3_failure_order (s : LibState) (mid i : Str) :
    (find_member s mid = none →
      (borrow_book s mid i).res = .error .memberNotFound ∧
      (return_book s mid i).res = .error .memberNotFound) ∧
    (∀ m, find_member s mid = some m → find_book s i = none →
      (borrow_book s mid i).res = .error .bookNotFound ∧
      (return_book s mid i).res = .error .bookNotFound) ∧
    (∀ m b, find_member s mid = some m → find_book s i = some b →
      b.is_borrowed = true →
      (borrow_book s mid i).res = .error .alreadyBorrowed) ∧
    (∀ m b, find_member s mid = some m → find_book s i = some b →
      b.is_borrowed = false → i ∈ m.borrowedBooks →
      (borrow_book s mid i).res = .error .memberAlreadyHas) ∧
    (∀ m b, find_member s mid = some m → find_book s i = some b →
      b.is_borrowed = false →
      (return_book s mid i).res = .error .notAvailable) ∧
    (∀ m b, find_member s mid = some m → find_book s i = some b →
      b.is_borrowed = true → i ∉ m.borrowedBooks →
      (return_book s mid i).res = .error .notBorrowedByMember) := by
  refine ⟨?_, ?_, ?_, ?_, ?_, ?_⟩
  · intro hm
    constructor
    · simp [borrow_book, hm]
    · simp [return_book, hm]
  · intro m hm hb
    constructor
    · simp [borrow_book, hm, hb]
    · simp [return_book, hm, hb]
  · intro m b hm hb hbor
    simp [borrow_book, hm, hb, hbor]
  · intro m b hm hb hbor hin
    simp [borrow_book, hm, hb, hbor, hin]
  · intro m b hm hb hbor
    simp [return_book, hm, hb, hbor]
  · intro m b hm hb hbor hnin
    simp [return_book, hm, hb, hbor, hnin]

/-- C3 witness: `memA` exists, `bkB` exists and is borrowed by `memB`,
yet returning it as `memA` reports `notBorrowedByMember`. -/
theorem c3_witness :
    (return_book sampleState (S "M1") (S "i2")).res
      = .error .notBorrowedByMember :=
  (c3_failure_order sampleState (S "M1") (S "i2")).2.2.2.2.2 memA bkB
    (by decide) (by decide) (by decide) (by decide)

/-- C4: whenever one of the four mutating operations reports a
failure, the in-memory state after the call equals the state before
it. -/
theorem c4_failure_leaves_state (s : LibState) (b : Book) (m : Member)
    (mid i : Str) (e₁ e₂ e₃ e₄ : LibErr) :
    ((add_book s b).res = .error e₁ → (add_book s b).state = s) ∧
    ((add_member s m).res = .error e₂ → (add_member s m).state = s) ∧
    ((borrow_book s mid i).res = .error e₃ →
      (borrow_book s mid i).state = s) ∧
    ((return_book s mid i).res = .error e₄ →
      (return_book s mid i).state = s) := by
  refine ⟨?_, ?_, ?_, ?_⟩
  · rw [add_book]
    split
    · intro _; rfl
    · intro hcontra; simp at hcontra
  · rw [add_member]
    split
    · intro _; rfl
    · intro hcontra; simp at hcontra
  · rw [borrow_book]
    split
    · intro _; rfl
    · split
      · intro _; rfl
      · split
        · intro _; rfl
        · split
          · intro _; rfl
          · intro hcontra; simp at hcontra
  · rw [return_book]
    split
    · intro _; rfl
    · split
      · intro _; rfl
      · split
        · intro _; rfl
        · split
          · intro _; rfl
          · intro hcontra; simp at hcontra

/-- C4 witness: adding a book with the already-present isbn `i1` fails
and leaves the state unchanged (in particular the books list length). -/
theorem c4_witness : (add_book sampleState bkA).state = sampleState :=
  (c4_failure_leaves_state sampleState bkA memA (S "M1") (S "i1")
    .duplicateBook .duplicateMember .memberNotFound .memberNotFound).1 rfl

/-- C10: `_save_data` runs exactly on the success path of each of the
four mutating operations: a reported failure never saves, a success
always saves (after the in-memory mutation). -/
theorem c10_save_iff_success (s : LibState) (b : Book) (m : Member)
    (mid i : Str) :
    ((add_book s b).saved = true ↔ (add_book s b).res = .ok ()) ∧
    ((add_member s m).saved = true ↔ (add_member s m).res = .ok ()) ∧
    ((borrow_book s mid i).saved = true ↔
      (borrow_book s mid i).res = .ok ()) ∧
    ((return_book s mid i).saved = true ↔
      (return_book s mid i).res = .ok ()) := by
  refine ⟨?_, ?_, ?_, ?_⟩
  · rw [add_book]
    split
    · simp
    · simp
  · rw [add_member]
    split
    · simp
    · simp
  · rw [borrow_book]
    split
    · simp
    · split
      · simp
      · split
        · simp
        · split
          · simp
          · simp
  · rw [return_book]
    split
    · simp
    · split
      · simp
      · split
        · simp
        · split
          · simp
          · simp

/-- C1 counterexample: the catalog obtained by loading a single book
row whose flag is `True` is reachable (it is a loaded catalog followed
by zero operations), yet its book is marked borrowed while no member's
borrowed list contains its isbn, so the claimed invariant fails. -/
theorem c1_counterexample :
    ¬ BorrowInv (loadData [[S "BOOK", S "i", S "t", S "a", S "True",
        S ""]]).state := by
  intro h
  have hb : (⟨S "t", S "a", S "i", true, BookVariant.plain⟩ : Book)
      ∈ (loadData [[S "BOOK", S "i", S "t", S "a", S "True",
          S ""]]).state.books := by decide
  exact absurd ((h _ hb).1.mp rfl) (by decide)

/-- C1 (amended): every catalog state reachable from the empty catalog
through `add_book` (of a book whose flag is still false, as the shell
constructs them), `add_member`, `borrow_book` and `return_book`
satisfies the invariant: a stored book is borrowed iff exactly one
member's borrowed list contains its isbn, and an unborrowed book is
referenced by no member.  States loaded from arbitrary files are
excluded: loading performs no such consistency check. -/
theorem c1_reachable_invariant (cmds : List Cmd)
    (h : ∀ b, Cmd.addBook b ∈ cmds → b.is_borrowed = false) :
    BorrowInv (runCmds cmds) :=
  borrowInv_of_goodState (goodState_runCmds cmds h)

/-- C1 witness: a concrete command sequence ending in a borrow. -/
theorem c1_witness :
    BorrowInv (runCmds [Cmd.addBook bkA,
      Cmd.addMember (S "M1") (S "Alice"),
      Cmd.borrowBook (S "M1") (S "i1")]) :=
  c1_reachable_invariant _ (by
    intro b hb
    simp at hb
    subst hb
    rfl)

/-- C5 counterexample: a member whose borrowed list holds the single
isbn `"a;b"` serializes to a row that parses back with the list
`["a", "b"]`, not the original field value. -/
theorem c5_counterexample :
    parseDataRow (Member.to_csv_row ⟨S "M1", S "Bob", [S "a;b"]⟩) ≠
      ParseOutcome.memberRec (mkMember (S "M1") (S "Bob")) [S "a;b"] := by
  decide

/-- C5 (amended): serializing a record and parsing the row with the
loader's per-tag constructor reconstructs the record exactly — for
every Book of any variant with arbitrary field values, and for every
Member whose borrowed isbns are each nonempty and free of the `;`
delimiter (the member's reconstructed provisional isbn list equals the
original borrowed list; an empty list serializes as the empty
string). -/
theorem c5_roundtrip_amended (b : Book) (m : Member)
    (hm : ∀ x ∈ m.borrowedBooks, x ≠ [] ∧ ';' ∉ x) :
    parseDataRow (Book.to_csv_row b) = ParseOutcome.bookRec b ∧
    parseDataRow (Member.to_csv_row m) =
      ParseOutcome.memberRec (mkMember m.member_id m.name)
        m.borrowedBooks := by
  constructor
  · obtain ⟨title, author, isbn, ib, v⟩ := b
    cases v with
    | plain => cases ib <;> rfl
    | fiction genre => cases ib <;> rfl
    | nonfiction subjectArea => cases ib <;> rfl
  · obtain ⟨mid, nm, l⟩ := m
    show parseDataRow [S "MEMBER", mid, nm, joinCh ';' l] = _
    rw [parseDataRow]
    rw [if_neg (fun hc => absurd hc.1 (by decide))]
    rw [if_neg (fun hc => absurd hc.1 (by decide))]
    rw [if_neg (fun hc => absurd hc.1 (by decide))]
    rw [if_pos ⟨rfl, by simp⟩]
    show ParseOutcome.memberRec (mkMember mid nm)
      (parseMemberIsbns (joinCh ';' l)) = _
    rw [parseMemberIsbns_joinCh hm]

/-- C5 witness: a concrete fiction book and a concrete member with a
nonempty borrowed list round-trip. -/
theorem c5_witness :
    parseDataRow (Book.to_csv_row bkB) = ParseOutcome.bookRec bkB ∧
    parseDataRow (Member.to_csv_row memB) =
      ParseOutcome.memberRec (mkMember (S "M2") (S "Bob")) [S "i2"] :=
  c5_roundtrip_amended bkB memB (by decide)

/-- C6 counterexample: a file whose second data row is empty makes the
loader raise mid-file; the failure is reported but the book loaded
from the first row remains in memory, so the catalog is not left
empty. -/
theorem c6_counterexample :
    (loadData [[S "BOOK", S "i1", S "t", S "a", S "False", S ""],
        []]).failed = true ∧
    (loadData [[S "BOOK", S "i1", S "t", S "a", S "False", S ""],
        []]).state.books ≠ [] := by
  decide

/-- C6 (amended): a read failure mid-file (an empty data row, on which
`row[0]` raises) is reported, but the catalog is NOT left empty: the
books and members parsed before the failing row remain in memory,
members keep unresolved (empty) borrowed lists, and the rows after the
failing row are not loaded. -/
theorem c6_failure_keeps_partial_state (pre post : List Row)
    (bs : List Book) (ms : List Member) (mp : List (Str × List Str))
    (h : parseRows pre = ⟨bs, ms, mp, false⟩) :
    loadData (pre ++ [] :: post) = ⟨⟨bs, ms⟩, [], true⟩ := by
  have hfail : parseRows ([] :: post) = ⟨[], [], [], true⟩ := rfl
  have hp : parseRows (pre ++ [] :: post) = ⟨bs, ms, mp, true⟩ := by
    rw [parseRows_append h ([] :: post), hfail]
    simp
  rw [loadData]
  simp [hp]

/-- C6 witness: one good book row followed by an empty row. -/
theorem c6_witness :
    loadData ([[S "BOOK", S "i1", S "t", S "a", S "False", S ""]]
        ++ [] :: []) =
      ⟨⟨[⟨S "t", S "a", S "i1", false, BookVariant.plain⟩], []⟩, [],
       true⟩ :=
  c6_failure_keeps_partial_state _ _ _ _ [] (by decide)

/-- C7 counterexample: an empty data row is not silently skipped — the
load reports a failure and the well-formed book row that follows it is
not loaded. -/
theorem c7_counterexample :
    (loadData [[], [S "BOOK", S "i1", S "t", S "a", S "False",
        S ""]]).failed = true ∧
    (loadData [[], [S "BOOK", S "i1", S "t", S "a", S "False",
        S ""]]).state.books = [] := by
  decide

/-- C7 (amended): a NONEMPTY data row shorter than the field count
required by its leading type tag matches no constructor branch; such a
row is silently skipped and every other row of the file still loads
exactly as if the row were absent.  An empty row is the exception: it
aborts the load with a reported error (see the counterexample). -/
theorem c7_short_rows_skipped_amended :
    (∀ (pre post : List Row) (r : Row), parseDataRow r = ParseOutcome.skip →
      loadData (pre ++ r :: post) = loadData (pre ++ post)) ∧
    (∀ (t : Str) (rest : List Str),
      (t = S "BOOK" → (t :: rest).length < 5) →
      (t = S "FICTION_BOOK" → (t :: rest).length < 6) →
      (t = S "NON_FICTION_BOOK" → (t :: rest).length < 6) →
      (t = S "MEMBER" → (t :: rest).length < 4) →
      parseDataRow (t :: rest) = ParseOutcome.skip) := by
  constructor
  · intro pre post r h
    rw [loadData, loadData, parseRows_skip pre post h]
  · intro t rest h1 h2 h3 h4
    rw [parseDataRow]
    rw [if_neg (by rintro ⟨ht, hlen⟩; have := h1 ht; omega)]
    rw [if_neg (by rintro ⟨ht, hlen⟩; have := h2 ht; omega)]
    rw [if_neg (by rintro ⟨ht, hlen⟩; have := h3 ht; omega)]
    rw [if_neg (by rintro ⟨ht, hlen⟩; have := h4 ht; omega)]

/-- C7 witness: a `MEMBER` row with too few fields is skipped and the
book rows around it load as if it were absent. -/
theorem c7_witness :
    loadData ([[S "BOOK", S "i1", S "t", S "a", S "False", S ""]]
        ++ [S "MEMBER"] :: [[S "BOOK", S "i2", S "u", S "b", S "False",
          S ""]]) =
      loadData ([[S "BOOK", S "i1", S "t", S "a", S "False", S ""]]
        ++ [[S "BOOK", S "i2", S "u", S "b", S "False", S ""]]) ∧
    parseDataRow [S "MEMBER"] = ParseOutcome.skip :=
  ⟨c7_short_rows_skipped_amended.1 _ _ _ (by decide),
   c7_short_rows_skipped_amended.2 (S "MEMBER") [] (by decide)
     (by decide) (by decide) (by decide)⟩

/-- C8 counterexample: loading a file whose book rows repeat the isbn
`i` produces a catalog storing two distinct books with the same
isbn — the loader performs no uniqueness check. -/
theorem c8_counterexample :
    ¬ ((loadData [[S "BOOK", S "i", S "t", S "a", S "False", S ""],
        [S "BOOK", S "i", S "u", S "b", S "False",
          S ""]]).state.books.map Book.isbn).Nodup := by
  decide

/-- C8 (amended): `add_book` refuses any book whose isbn is already
stored, so it preserves isbn uniqueness from any state that has it (in
particular along any `add_book`-reachable state from empty); loading
an arbitrary persisted file, however, does not re-establish
uniqueness. -/
theorem c8_add_book_preserves_unique_isbn (s : LibState) (b : Book)
    (h : (s.books.map Book.isbn).Nodup) :
    ((add_book s b).state.books.map Book.isbn).Nodup := by
  rw [add_book]
  split
  · exact h
  · rename_i hdup
    push_neg at hdup
    dsimp only
    rw [List.map_append, List.nodup_append]
    refine ⟨h, by simp, ?_⟩
    intro x hx
    simp only [List.mem_map] at hx
    obtain ⟨c, hc, rfl⟩ := hx
    simp only [List.map_cons, List.map_nil, List.mem_singleton]
    intro hcb
    exact hdup c hc hcb

/-- C8 witness: adding a fresh-isbn book to the sample state keeps the
isbns unique. -/
theorem c8_witness :
    (((add_book sampleState ⟨S "v", S "c", S "i3", false,
        BookVariant.plain⟩).state.books.map Book.isbn)).Nodup :=
  c8_add_book_preserves_unique_isbn sampleState _ (by decide)

/-- C9: loading a well-formed persisted file (every row nonempty, as
`_save_data` writes them) whose member row for `mid` references an
isbn `i` with no matching book row succeeds, records a warning naming
that member and `i`, and gives the member exactly the referenced isbns
that do resolve — `i` itself is absent. -/
theorem c9_unresolved_isbn_dropped_with_warning (rows : List Row)
    (mid : Str) (isbns : List Str) (i : Str)
    (hrows : ∀ r ∈ rows, r ≠ [])
    (hmap : lookupLast (parseRows rows).mapping mid = some isbns)
    (hi : i ∈ isbns)
    (hnone : findBookIn (parseRows rows).books i = none) :
    (loadData rows).failed = false ∧
    ∃ m, findMemberIn (loadData rows).state.members mid = some m ∧
      m.borrowedBooks = isbns.filter
        (fun j => (findBookIn (parseRows rows).books j).isSome) ∧
      i ∉ m.borrowedBooks ∧
      (m.name, i) ∈ (loadData rows).warnings := by
  have hf := parseRows_noFail hrows
  have hload : loadData rows =
      ⟨⟨(parseRows rows).books,
        (resolveAll (parseRows rows).books (parseRows rows).mapping
          (parseRows rows).members).1⟩,
       (resolveAll (parseRows rows).books (parseRows rows).mapping
          (parseRows rows).members).2, false⟩ := by
    rw [loadData]
    simp [hf]
  obtain ⟨m0, hm0⟩ := mapping_member_exists hmap
  have hm0e : m0.borrowedBooks = [] :=
    parseRows_members_empty m0 (findMemberIn_mem hm0).1
  have hfind := @resolveAll_find (parseRows rows).books
    (parseRows rows).mapping (parseRows rows).members mid m0 hm0
  refine ⟨by rw [hload], ?_⟩
  rw [hload]
  refine ⟨_, hfind, ?_, ?_, ?_⟩
  · dsimp only
    rw [hm0e, hmap]
    simp
  · dsimp only
    rw [hm0e, hmap]
    simp only [Option.getD_some, List.nil_append]
    intro hmem
    have := (List.mem_filter.mp hmem).2
    rw [hnone] at this
    cases this
  · exact resolveAll_warn hm0 (by rw [hmap]; exact hi) hnone

/-- C9 witness: `rowsA` holds one book row (`i1`) and a member row
referencing `i1;i2`; the load succeeds, warns about `i2`, and the
member ends up holding exactly `i1`. -/
theorem c9_witness :
    (loadData rowsA).failed = false ∧
    ∃ m, findMemberIn (loadData rowsA).state.members (S "M1") = some m ∧
      m.borrowedBooks = ([S "i1", S "i2"] : List Str).filter
        (fun j => (findBookIn (parseRows rowsA).books j).isSome) ∧
      S "i2" ∉ m.borrowedBooks ∧
      (m.name, S "i2") ∈ (loadData rowsA).warnings :=
  c9_unresolved_isbn_dropped_with_warning rowsA (S "M1")
    [S "i1", S "i2"] (S "i2") (by decide) (by decide) (by decide)
    (by decide)

end LibApp
